import Mathlib

/-!
Verification of the pathway aggregation and filtering pipeline of
`streamlit_app.py` (Metabolic Pathway Explorer).

The two relevant functions of the source are `create_pathway_explorer`
(two-group comparison, called with distinct `hi_label`/`lo_label`) and
`create_three_way_pathway_explorer` (three-way ANOVA data).  Both take a
dataframe of per-reaction statistics, filter it by a search term, a
categorical selection, significance and gene flags and an effect-size
threshold, group the surviving rows by `pathway`, aggregate, and sort.

Conventions of the embedding:
* dataframe rows become structures over `ℚ` (for floats), `String`, `Bool`
  and `ℕ`; a dataframe is a `List` of rows in input order;
* `pandas.DataFrame.sort_values` over several keys uses `numpy.lexsort`,
  which is stable; it is modelled by the stable insertion sort `sortRows`
  below, as are the other genuinely stable sorts the source relies on (the
  sorted group keys of `groupby`, `Series.median`'s sort, and the
  `kind="stable"` count sort inside `value_counts`).  The single-key
  descending reaction sort of lines 252 and 538 uses pandas' default
  `kind='quicksort'`, which is not stable; its tie order is
  implementation-defined, so no function for it is defined here (see the
  reaction-view section below);
* `groupby('pathway')` sorts the group keys ascending (pandas default
  `sort=True`), each group keeping its rows in input order;
* `Series.str.contains(term)` keeps its pandas default `regex=True` and
  therefore matches `term` as a regular expression (`re.search`); the
  fragment of regex syntax modelled here is literal characters plus the
  `.` wildcard, and theorems that need literal-substring behaviour
  restrict the term to metacharacter-free strings;
* `str.lower` is modelled with `Char.toLower` (identical on ASCII data).
-/

namespace Compass

/-! ### Generic list machinery -/

/-- Insert `x` into `l`, passing the elements `y` with `lt y x` and placing
`x` in front of the first element not strictly before it.  Used through
`sortRows`; inserting in front of ties makes the sort stable. -/
def insertRow {α : Type} (lt : α → α → Bool) (x : α) : List α → List α
  | [] => [x]
  | y :: ys => if lt y x = true then y :: insertRow lt x ys else x :: y :: ys

/-- Stable insertion sort: `lt a b` means `a` sorts strictly before `b`.
Elements equivalent under `lt` keep their input order.  Models the stable
sorts performed by pandas (`lexsort` for several keys, the
reverse/argsort/reverse path for one descending key, `groupby`'s key
sort). -/
def sortRows {α : Type} (lt : α → α → Bool) : List α → List α
  | [] => []
  | x :: xs => insertRow lt x (sortRows lt xs)

/-- Auxiliary accumulator for `uniqueFirst`: drops elements already seen. -/
def uniqueFirstAux {α : Type} [DecidableEq α] (seen : List α) : List α → List α
  | [] => []
  | x :: xs =>
    if x ∈ seen then uniqueFirstAux seen xs
    else x :: uniqueFirstAux (x :: seen) xs

/-- Distinct values of a list in order of first appearance; models
`pandas.Series.unique` and the key order of pandas hash tables. -/
def uniqueFirst {α : Type} [DecidableEq α] (xs : List α) : List α :=
  uniqueFirstAux [] xs

theorem mem_insertRow {α : Type} (lt : α → α → Bool) (x : α) :
    ∀ (l : List α) (a : α), a ∈ insertRow lt x l ↔ a = x ∨ a ∈ l
  | [], a => by simp [insertRow]
  | y :: ys, a => by
    by_cases h : lt y x = true
    · simp only [insertRow, if_pos h, List.mem_cons, mem_insertRow lt x ys a]
      tauto
    · simp only [insertRow, if_neg h, List.mem_cons]

theorem insertRow_perm {α : Type} (lt : α → α → Bool) (x : α) :
    ∀ l : List α, List.Perm (insertRow lt x l) (x :: l)
  | [] => List.Perm.refl _
  | y :: ys => by
    by_cases h : lt y x = true
    · simp only [insertRow, if_pos h]
      exact ((insertRow_perm lt x ys).cons y).trans (List.Perm.swap x y ys)
    · simp only [insertRow, if_neg h]
      exact List.Perm.refl _

theorem sortRows_perm {α : Type} (lt : α → α → Bool) :
    ∀ l : List α, List.Perm (sortRows lt l) l
  | [] => List.Perm.refl _
  | x :: xs => (insertRow_perm lt x (sortRows lt xs)).trans
      ((sortRows_perm lt xs).cons x)

theorem mem_sortRows {α : Type} (lt : α → α → Bool) (l : List α) (a : α) :
    a ∈ sortRows lt l ↔ a ∈ l :=
  (sortRows_perm lt l).mem_iff

theorem mem_uniqueFirstAux {α : Type} [DecidableEq α] :
    ∀ (l seen : List α) (a : α),
      a ∈ uniqueFirstAux seen l ↔ a ∈ l ∧ a ∉ seen
  | [], seen, a => by simp [uniqueFirstAux]
  | x :: xs, seen, a => by
    by_cases h : x ∈ seen
    · simp only [uniqueFirstAux, if_pos h, mem_uniqueFirstAux xs seen a,
        List.mem_cons]
      constructor
      · rintro ⟨hm, hn⟩; exact ⟨Or.inr hm, hn⟩
      · rintro ⟨hm | hm, hn⟩
        · exact absurd (hm ▸ h) hn
        · exact ⟨hm, hn⟩
    · simp only [uniqueFirstAux, if_neg h, List.mem_cons,
        mem_uniqueFirstAux xs (x :: seen) a]
      by_cases hax : a = x
      · subst hax
        simp [h]
      · simp only [hax, false_or]

theorem mem_uniqueFirst {α : Type} [DecidableEq α] (xs : List α) (a : α) :
    a ∈ uniqueFirst xs ↔ a ∈ xs := by
  simp [uniqueFirst, mem_uniqueFirstAux]

theorem nodup_uniqueFirstAux {α : Type} [DecidableEq α] :
    ∀ (l seen : List α), (uniqueFirstAux seen l).Nodup
  | [], _ => List.nodup_nil
  | x :: xs, seen => by
    by_cases h : x ∈ seen
    · simpa only [uniqueFirstAux, if_pos h] using nodup_uniqueFirstAux xs seen
    · simp only [uniqueFirstAux, if_neg h, List.nodup_cons]
      refine ⟨fun hm => ?_, nodup_uniqueFirstAux xs (x :: seen)⟩
      exact ((mem_uniqueFirstAux xs (x :: seen) x).mp hm).2 (by simp)

theorem nodup_uniqueFirst {α : Type} [DecidableEq α] (xs : List α) :
    (uniqueFirst xs).Nodup :=
  nodup_uniqueFirstAux xs []

/-- Sortedness with stability: if the input is `Pairwise S` and `lt` is a
strict weak order (hypotheses `hA`, `hC`), the output of `sortRows` is
pairwise "strictly before, or tied and in the input relation `S`". -/
theorem pairwise_insertRow {α : Type} (lt : α → α → Bool) (S : α → α → Prop)
    (hA : ∀ x y z, lt y x = false → lt y z = true → lt x z = true)
    (hC : ∀ x y z, lt z y = false → lt y x = false → lt z x = false)
    (x : α) :
    ∀ l : List α,
      l.Pairwise (fun a b => lt a b = true ∨
        (lt a b = false ∧ lt b a = false ∧ S a b)) →
      (∀ y ∈ l, S x y) →
      (insertRow lt x l).Pairwise (fun a b => lt a b = true ∨
        (lt a b = false ∧ lt b a = false ∧ S a b))
  | [], _, _ => by simp [insertRow]
  | y :: ys, hl, hx => by
    rcases List.pairwise_cons.mp hl with ⟨hy, hys⟩
    by_cases hyx : lt y x = true
    · simp only [insertRow, if_pos hyx]
      refine List.pairwise_cons.mpr ⟨fun z hz => ?_, ?_⟩
      · rcases (mem_insertRow lt x ys z).mp hz with rfl | hz
        · exact Or.inl hyx
        · exact hy z hz
      · exact pairwise_insertRow lt S hA hC x ys hys
          (fun z hz => hx z (List.mem_cons_of_mem _ hz))
    · have hyx' : lt y x = false := by
        cases h : lt y x
        · rfl
        · exact absurd h hyx
      simp only [insertRow, if_neg hyx]
      refine List.pairwise_cons.mpr ⟨fun z hz => ?_, hl⟩
      rcases List.mem_cons.mp hz with rfl | hz
      · cases hxy : lt x z
        · exact Or.inr ⟨rfl, hyx', hx z (List.mem_cons_self _ _)⟩
        · exact Or.inl rfl
      · rcases hy z hz with hyz | ⟨hyz, hzy, _⟩
        · exact Or.inl (hA x y z hyx' hyz)
        · cases hxz : lt x z
          · exact Or.inr ⟨rfl, hC x y z hzy hyx', hx z (List.mem_cons_of_mem _ hz)⟩
          · exact Or.inl rfl

/-- Stable sorting theorem for `sortRows`: see `pairwise_insertRow`. -/
theorem sortRows_pairwise {α : Type} (lt : α → α → Bool) (S : α → α → Prop)
    (hA : ∀ x y z, lt y x = false → lt y z = true → lt x z = true)
    (hC : ∀ x y z, lt z y = false → lt y x = false → lt z x = false) :
    ∀ l : List α, l.Pairwise S →
      (sortRows lt l).Pairwise (fun a b => lt a b = true ∨
        (lt a b = false ∧ lt b a = false ∧ S a b))
  | [], _ => by simp [sortRows]
  | x :: xs, h => by
    rcases List.pairwise_cons.mp h with ⟨hx, hxs⟩
    exact pairwise_insertRow lt S hA hC x (sortRows lt xs)
      (sortRows_pairwise lt S hA hC xs hxs)
      (fun y hy => hx y ((mem_sortRows lt xs y).mp hy))

/-! ### String ordering (Python `str <`, i.e. code-point lexicographic) -/

/-- Code-point lexicographic order on character lists; the order Python uses
for `str` comparison and hence the key order of `groupby(sort=True)`. -/
def charListLt : List Char → List Char → Bool
  | _, [] => false
  | [], _ :: _ => true
  | a :: as, b :: bs =>
    if a < b then true
    else if b < a then false
    else charListLt as bs

/-- String comparison through `charListLt`. -/
def strLt (a b : String) : Bool := charListLt a.toList b.toList

theorem charListLt_trans :
    ∀ a b c : List Char, charListLt a b = true → charListLt b c = true →
      charListLt a c = true
  | _, _, [], _, h2 => by simp [charListLt] at h2
  | [], _, _ :: _, _, _ => by simp [charListLt]
  | _ :: _, [], _ :: _, h1, _ => by simp [charListLt] at h1
  | a :: as, b :: bs, c :: cs, h1, h2 => by
    simp only [charListLt] at h1 h2 ⊢
    by_cases hab : a < b
    · by_cases hbc : b < c
      · simp [lt_trans hab hbc]
      · by_cases hcb : c < b
        · rw [if_neg hbc, if_pos hcb] at h2
          exact absurd h2 (by simp)
        · have hbc' : b = c := le_antisymm (le_of_not_lt hcb) (le_of_not_lt hbc)
          simp [hbc' ▸ hab]
    · by_cases hba : b < a
      · rw [if_neg hab, if_pos hba] at h1
        exact absurd h1 (by simp)
      · have hab' : a = b := le_antisymm (le_of_not_lt hba) (le_of_not_lt hab)
        rw [if_neg hab, if_neg hba] at h1
        by_cases hbc : b < c
        · simp [hab' ▸ hbc]
        · by_cases hcb : c < b
          · rw [if_neg hbc, if_pos hcb] at h2
            exact absurd h2 (by simp)
          · rw [if_neg hbc, if_neg hcb] at h2
            have hac : ¬ a < c := hab' ▸ hbc
            have hca : ¬ c < a := hab' ▸ hcb
            simp [if_neg hac, if_neg hca, charListLt_trans as bs cs h1 h2]

theorem charListLt_total :
    ∀ a b : List Char, charListLt a b = false → charListLt b a = false → a = b
  | [], [], _, _ => rfl
  | [], _ :: _, h1, _ => by simp [charListLt] at h1
  | _ :: _, [], _, h2 => by simp [charListLt] at h2
  | a :: as, b :: bs, h1, h2 => by
    simp only [charListLt] at h1 h2
    by_cases hab : a < b
    · rw [if_pos hab] at h1
      exact absurd h1 (by simp)
    · by_cases hba : b < a
      · rw [if_pos hba] at h2
        exact absurd h2 (by simp)
      · have hab' : a = b := le_antisymm (le_of_not_lt hba) (le_of_not_lt hab)
        rw [if_neg hab, if_neg hba] at h1
        rw [if_neg hba, if_neg hab] at h2
        rw [hab', charListLt_total as bs h1 h2]

theorem strLt_hA (x y z : String) :
    strLt y x = false → strLt y z = true → strLt x z = true := by
  intro h1 h2
  simp only [strLt] at h1 h2 ⊢
  cases h3 : charListLt x.toList z.toList
  · exfalso
    cases h4 : charListLt z.toList x.toList
    · have hxz := charListLt_total _ _ h3 h4
      rw [hxz] at h1
      rw [h1] at h2
      exact Bool.noConfusion h2
    · have h5 := charListLt_trans _ _ _ h2 h4
      rw [h1] at h5
      exact Bool.noConfusion h5
  · rfl

theorem strLt_hC (x y z : String) :
    strLt z y = false → strLt y x = false → strLt z x = false := by
  intro h1 h2
  simp only [strLt] at h1 h2 ⊢
  cases h3 : charListLt z.toList x.toList
  · rfl
  · exfalso
    cases h4 : charListLt y.toList z.toList
    · have hzy := charListLt_total _ _ h1 h4
      rw [hzy] at h3
      rw [h2] at h3
      exact Bool.noConfusion h3
    · have h5 := charListLt_trans _ _ _ h4 h3
      rw [h2] at h5
      exact Bool.noConfusion h5

theorem strLt_tie_eq (a b : String) :
    strLt a b = false → strLt b a = false → a = b := by
  intro h1 h2
  have h := charListLt_total a.toList b.toList h1 h2
  cases a with
  | mk da =>
    cases b with
    | mk db =>
      exact congrArg String.mk (h : da = db)

/-! ### Search model: pandas `str.contains` with its `regex=True` default -/

/-- One-position regex match; covers the fragment of `re` syntax consisting
of literal characters and the `.` wildcard (the constructs exercised by the
theorems below; theorems comparing against literal containment restrict the
pattern to metacharacter-free strings). -/
def matchHere : List Char → List Char → Bool
  | [], _ => true
  | _ :: _, [] => false
  | p :: ps, c :: cs => (p == '.' || p == c) && matchHere ps cs

/-- Model of `re.search` for the fragment above: does the pattern match at
some position of the text? -/
def reSearch (p : List Char) : List Char → Bool
  | [] => matchHere p []
  | c :: cs => matchHere p (c :: cs) || reSearch p cs

/-- Literal one-position match (no wildcard). -/
def litHere : List Char → List Char → Bool
  | [], _ => true
  | _ :: _, [] => false
  | p :: ps, c :: cs => p == c && litHere ps cs

/-- Literal substring containment: the needle occurs contiguously in the
text.  This is the behaviour the specification describes for the search
step. -/
def litSearch (p : List Char) : List Char → Bool
  | [] => litHere p []
  | c :: cs => litHere p (c :: cs) || litSearch p cs

/-- Characters `re` treats specially; a pattern avoiding all of them is
matched exactly like a literal substring. -/
def metaChars : List Char :=
  ['.', '^', '$', '*', '+', '?', '\x7b', '\x7d', '[', ']', '(', ')', '\\', '|']

/-- Lower-cased character list of a string; models `str.lower` (identical
on the ASCII data of this application). -/
def lowerChars (s : String) : List Char := s.toList.map Char.toLower

theorem matchHere_eq_litHere :
    ∀ p s : List Char, (∀ c ∈ p, c ∉ metaChars) → matchHere p s = litHere p s
  | [], _, _ => rfl
  | _ :: _, [], _ => rfl
  | p :: ps, c :: cs, h => by
    have hdot : p ≠ '.' := by
      intro hp
      exact (h p (List.mem_cons_self _ _)) (hp ▸ by simp [metaChars])
    have : (p == '.') = false := by
      simpa using hdot
    simp only [matchHere, litHere, this, Bool.false_or,
      matchHere_eq_litHere ps cs (fun a ha => h a (List.mem_cons_of_mem _ ha))]

theorem reSearch_eq_litSearch (p : List Char) (hp : ∀ c ∈ p, c ∉ metaChars) :
    ∀ s : List Char, reSearch p s = litSearch p s
  | [] => by simp [reSearch, litSearch, matchHere_eq_litHere p [] hp]
  | c :: cs => by
    simp only [reSearch, litSearch, matchHere_eq_litHere p (c :: cs) hp,
      reSearch_eq_litSearch p hp cs]

/-! ### Data model

One row of the two-group comparison tables (CD4, CD8, pairwise thymic
stages).  Display-only columns (`reaction_name`, `ec_number`) are not used
by any filtering, grouping or sorting step and are omitted. -/

structure Row where
  reaction_id : String
  pathway : String
  cohens_d : ℚ
  p_value : ℚ
  significant : Bool
  genes : String
  n_genes : ℕ
  pathway_direction : String
  pathway_median_d : ℚ
deriving DecidableEq

/-- One row of the three-way ANOVA table.  The per-stage mean columns are
only read back for display in the source; they are carried here so the
specification's derived "highest stage" label can be stated against them. -/
structure Row3 where
  reaction_id : String
  pathway : String
  cohens_d : ℚ
  p_value : ℚ
  significant : Bool
  genes : String
  n_genes : ℕ
  developmental_trajectory : String
  early_mean : ℚ
  late_mean : ℚ
  mature_mean : ℚ
deriving DecidableEq

/-- The three-way dataframe: its rows plus whether the optional
`developmental_trajectory` column is present (the source tests
`'developmental_trajectory' in data.columns`). -/
structure Table3 where
  rows : List Row3
  hasTrajectory : Bool
deriving DecidableEq

/-- The sidebar filter state: search text, the selectbox value (the
direction label for two-group tabs, the developmental pattern for the
three-way tab; `"All"` disables it), the two checkboxes, and the
`Minimum |Effect Size|` slider value. -/
structure FSpec where
  search_term : String
  direction : String
  significant_only : Bool
  genes_only : Bool
  min_effect : ℚ
deriving DecidableEq

/-! ### Filtering steps of `create_pathway_explorer` (lines 139-175) -/

/-- Search step (lines 142-150): with a non-empty term, keep rows whose
lower-cased `pathway` or `genes` string matches the lower-cased term under
`Series.str.contains` — i.e. as a regular expression (`regex=True`
default), modelled by `reSearch`.  An empty term leaves the table
unchanged (`if search_term:`). -/
def searchStep (term : String) (t : List Row) : List Row :=
  if term = "" then t
  else t.filter fun r =>
    reSearch (lowerChars term) (lowerChars r.pathway) ||
    reSearch (lowerChars term) (lowerChars r.genes)

/-- The direction label the filter compares against (lines 158-165): for a
two-group tab (`hi_label != lo_label`, true at every call site) the source
overwrites the direction with `hi_label if pathway_median_d > 0 else
lo_label`; only with identical labels would the input `pathway_direction`
be used. -/
def directionLabel (hi lo : String) (r : Row) : String :=
  if hi = lo then r.pathway_direction
  else if 0 < r.pathway_median_d then hi else lo

/-- The options of the `Higher in Population` selectbox (line 127):
`['All'] + list(data['pathway_direction'].unique())`, built from the raw
input column, not from the recomputed labels. -/
def directionOptions (t : List Row) : List String :=
  "All" :: uniqueFirst (t.map Row.pathway_direction)

/-- Direction filter (lines 168-169): exact equality against the selected
option, skipped for `"All"`. -/
def directionStep (hi lo sel : String) (t : List Row) : List Row :=
  if sel = "All" then t
  else t.filter fun r => directionLabel hi lo r == sel

/-- Significance filter (lines 171-172). -/
def sigStep (only : Bool) (t : List Row) : List Row :=
  if only then t.filter (fun r => r.significant) else t

/-- Known-genes filter (lines 174-175): `n_genes > 0`. -/
def genesStep (only : Bool) (t : List Row) : List Row :=
  if only then t.filter (fun r => decide (0 < r.n_genes)) else t

/-- The filtered reaction table of the two-group explorer: search, then
direction, then significance, then genes.  The `min_effect` slider does
not act on rows here; it acts on the aggregated pathways (line 195). -/
def twoGroupFiltered (hi lo : String) (t : List Row) (spec : FSpec) : List Row :=
  genesStep spec.genes_only
    (sigStep spec.significant_only
      (directionStep hi lo spec.direction
        (searchStep spec.search_term t)))

/-! ### Pathway aggregation of `create_pathway_explorer` (lines 184-201) -/

/-- `round(x, 1)` of pandas, modelled over `ℚ` as rounding `10 x` to the
nearest integer (the float banker's-rounding of exact `.05` midpoints is
immaterial to every property proved here). -/
def round1 (q : ℚ) : ℚ := ((round (q * 10) : ℤ) : ℚ) / 10

/-- One row of the aggregated Pathway Summary. -/
structure SRow where
  pathway : String
  direction : String
  median_d : ℚ
  n_significant : ℕ
  n_total : ℕ
  pct_significant : ℚ
deriving DecidableEq

/-- The aggregation of one pathway group (lines 184-192): `'first'` of
`pathway_direction` and `pathway_median_d`, `'sum'` of the boolean
`significant` column, `'count'` of `reaction_id`, then
`pct_significant = (n_significant / n_total * 100).round(1)`. -/
def aggGroup (p : String) (rs : List Row) : SRow :=
  { pathway := p
    direction := ((rs.head?).map Row.pathway_direction).getD ""
    median_d := ((rs.head?).map Row.pathway_median_d).getD 0
    n_significant := rs.countP (fun r => r.significant)
    n_total := rs.length
    pct_significant :=
      round1 ((rs.countP (fun r => r.significant) : ℚ) / (rs.length : ℚ) * 100) }

/-- The group keys of `groupby('pathway')`: the distinct pathway values,
sorted ascending (pandas default `sort=True`). -/
def sortedPathways (t : List Row) : List String :=
  sortRows strLt (uniqueFirst (t.map Row.pathway))

/-- The grouped table before the effect-size filter and the final sort:
one `SRow` per distinct pathway, keys ascending, each group holding its
rows in input order. -/
def groupedPathways (t : List Row) : List SRow :=
  (sortedPathways t).map fun p => aggGroup p (t.filter fun r => r.pathway == p)

/-- Strict comparison for the final two-key sort (lines 198-201):
`a` sorts strictly before `b` iff `|a.median_d| > |b.median_d|`, or the
absolute medians tie and `a.pct_significant > b.pct_significant`. -/
def srowLt (a b : SRow) : Bool :=
  decide (|b.median_d| < |a.median_d|) ||
    (decide (|a.median_d| = |b.median_d|) && decide (b.pct_significant < a.pct_significant))

/-- The Pathway Summary of the two-group explorer: aggregate the filtered
table, drop pathways with `|median_d| < min_effect` (line 195), and sort by
`['abs_median_d', 'pct_significant']` descending (stable `lexsort`). -/
def twoGroupSummary (hi lo : String) (t : List Row) (spec : FSpec) : List SRow :=
  sortRows srowLt
    ((groupedPathways (twoGroupFiltered hi lo t spec)).filter
      fun s => decide (spec.min_effect ≤ |s.median_d|))

/-! ### `create_three_way_pathway_explorer` (lines 379-440) -/

/-- Search step of the three-way explorer (lines 382-390); identical to
the two-group one. -/
def searchStep3 (term : String) (t : List Row3) : List Row3 :=
  if term = "" then t
  else t.filter fun r =>
    reSearch (lowerChars term) (lowerChars r.pathway) ||
    reSearch (lowerChars term) (lowerChars r.genes)

/-- Developmental-pattern filter (lines 399-400): exact equality, applied
only when a value other than `'All'` is selected and the
`developmental_trajectory` column exists. -/
def trajectoryStep (hasTraj : Bool) (sel : String) (t : List Row3) : List Row3 :=
  if sel ≠ "All" ∧ hasTraj = true then
    t.filter fun r => r.developmental_trajectory == sel
  else t

/-- Significance filter of the three-way explorer (lines 402-403). -/
def sigStep3 (only : Bool) (t : List Row3) : List Row3 :=
  if only then t.filter (fun r => r.significant) else t

/-- Known-genes filter of the three-way explorer (lines 405-406). -/
def genesStep3 (only : Bool) (t : List Row3) : List Row3 :=
  if only then t.filter (fun r => decide (0 < r.n_genes)) else t

/-- Effect-size filter of the three-way explorer (line 409): unlike the
two-group explorer it removes individual rows with `|cohens_d| <
min_effect` before any aggregation. -/
def effectStep3 (m : ℚ) (t : List Row3) : List Row3 :=
  t.filter fun r => decide (m ≤ |r.cohens_d|)

/-- The filtered reaction table of the three-way explorer: search,
trajectory, significance, genes, then the per-row effect-size filter. -/
def threeWayFiltered (t : Table3) (spec : FSpec) : List Row3 :=
  effectStep3 spec.min_effect
    (genesStep3 spec.genes_only
      (sigStep3 spec.significant_only
        (trajectoryStep t.hasTrajectory spec.direction
          (searchStep3 spec.search_term t.rows))))

/-- Comparison for sorting rationals ascending. -/
def ratLt (a b : ℚ) : Bool := decide (a < b)

/-- `Series.median`: sort the values; middle element for odd length,
mean of the two middle elements for even length. -/
def medianQ (xs : List ℚ) : ℚ :=
  let s := sortRows ratLt xs
  if s.length = 0 then 0
  else if s.length % 2 = 1 then s.getD (s.length / 2) 0
  else (s.getD (s.length / 2 - 1) 0 + s.getD (s.length / 2) 0) / 2

/-- Comparison for the descending count sort inside `value_counts`. -/
def pairCntLt (a b : String × ℕ) : Bool := decide (b.2 < a.2)

/-- `x.value_counts().index[0]` (line 425): count each distinct value
(keys in first-appearance order), sort the counts descending (pandas'
descending `sort_values` reverses a reversed stable ascending `argsort`,
which keeps tied counts in key order), and take the first key. -/
def modeVC (xs : List String) : String :=
  match sortRows pairCntLt ((uniqueFirst xs).map fun k => (k, xs.count k)) with
  | [] => ""
  | kv :: _ => kv.1

/-- One row of the three-way Pathway Summary. -/
structure SRow3 where
  pathway : String
  median_d : ℚ
  n_significant : ℕ
  n_total : ℕ
  common_trajectory : String
  pct_significant : ℚ
deriving DecidableEq

/-- Aggregation of one pathway group in the three-way explorer (lines
418-435): median of `cohens_d`, sum of `significant`, count of
`reaction_id`, the most common trajectory when the column exists and the
literal `'Unknown'` otherwise, and the rounded percent significant. -/
def aggGroup3 (hasTraj : Bool) (p : String) (rs : List Row3) : SRow3 :=
  { pathway := p
    median_d := medianQ (rs.map Row3.cohens_d)
    n_significant := rs.countP (fun r => r.significant)
    n_total := rs.length
    common_trajectory :=
      if hasTraj then modeVC (rs.map Row3.developmental_trajectory) else "Unknown"
    pct_significant :=
      round1 ((rs.countP (fun r => r.significant) : ℚ) / (rs.length : ℚ) * 100) }

/-- Group keys of the three-way `groupby('pathway')`. -/
def sortedPathways3 (t : List Row3) : List String :=
  sortRows strLt (uniqueFirst (t.map Row3.pathway))

/-- The grouped three-way table. -/
def grouped3 (hasTraj : Bool) (t : List Row3) : List SRow3 :=
  (sortedPathways3 t).map fun p => aggGroup3 hasTraj p (t.filter fun r => r.pathway == p)

/-- Strict comparison for the final two-key sort of the three-way summary
(lines 437-440), identical keys to the two-group explorer. -/
def srow3Lt (a b : SRow3) : Bool :=
  decide (|b.median_d| < |a.median_d|) ||
    (decide (|a.median_d| = |b.median_d|) && decide (b.pct_significant < a.pct_significant))

/-- The three-way Pathway Summary: aggregate the filtered table and sort;
no pathway-level effect-size filter exists in this explorer. -/
def threeWaySummary (t : Table3) (spec : FSpec) : List SRow3 :=
  sortRows srow3Lt (grouped3 t.hasTrajectory (threeWayFiltered t spec))

/-! ### Reaction-level views (lines 249-252 and 535-538)

The reaction view restricts the filtered table to the selected pathways
(`isin`) and then sorts it with
`sort_values('cohens_d', key=abs, ascending=False)`.  That is a
single-column sort, so pandas uses its default `kind='quicksort'` (numpy
introsort), which is not a stable sort: the order of rows with equal
`|cohens_d|` is implementation-defined once the array exceeds numpy's
small-array insertion-sort cutoff.  A stable sort would not be a faithful
model of this call, and numpy's introsort internals are outside this
development, so no function for the sorted reaction view is defined
here. -/

/-! ### Column-presence model for the search step -/

/-- The search step with the presence of the `genes` column made explicit:
the source reads `filtered_data['genes']` without any guard (line 147), so
with the column absent and a non-empty term the lookup raises `KeyError`;
with an empty term the search block is skipped entirely. -/
def searchStepChecked (hasGenes : Bool) (term : String) (t : List Row) :
    Except Unit (List Row) :=
  if term = "" then Except.ok t
  else if hasGenes then Except.ok (searchStep term t) else Except.error ()

/-! ### Definitions stated from the specification's words (for comparison)

The source never computes a per-reaction argmax over the stage-mean
columns — the aggregated summary carries no `highest_stage` column, and
`common_trajectory` is the mode of `developmental_trajectory`.  The two
definitions below follow the claim's words so the claim can be compared
with what the code computes. -/

/-- Stated from the claim: argmax of
`(early_mean, late_mean, mature_mean)` with ties resolved in the declared
order Early, Late, Mature. -/
def claimHighestStage (r : Row3) : String :=
  if r.late_mean ≤ r.early_mean ∧ r.mature_mean ≤ r.early_mean then "Early_Selection"
  else if r.mature_mean ≤ r.late_mean then "Late_Selection"
  else "Mature_CD8SP"

/-- Stated from the claim: the most frequent per-reaction highest-stage
label, frequency ties resolved by first encounter. -/
def claimCommonLabel (rs : List Row3) : String :=
  modeVC (rs.map claimHighestStage)

/-! ### Order relations used to state the sortedness claims -/

/-- The order the two-group Pathway Summary rows actually satisfy:
`|median_d|` descending, then `pct_significant` descending, remaining ties
in ascending pathway-name order (the order `groupby` emits the groups
in). -/
def summaryOrder (a b : SRow) : Prop :=
  |b.median_d| < |a.median_d| ∨
    (|a.median_d| = |b.median_d| ∧ b.pct_significant < a.pct_significant) ∨
    (|a.median_d| = |b.median_d| ∧ a.pct_significant = b.pct_significant ∧
      strLt a.pathway b.pathway = true)

/-- Same order for the three-way summary. -/
def summaryOrder3 (a b : SRow3) : Prop :=
  |b.median_d| < |a.median_d| ∨
    (|a.median_d| = |b.median_d| ∧ b.pct_significant < a.pct_significant) ∨
    (|a.median_d| = |b.median_d| ∧ a.pct_significant = b.pct_significant ∧
      strLt a.pathway b.pathway = true)

/-! ### Helper lemmas about the comparison functions -/

theorem srowLt_iff (a b : SRow) : srowLt a b = true ↔
    (|b.median_d| < |a.median_d| ∨
      (|a.median_d| = |b.median_d| ∧ b.pct_significant < a.pct_significant)) := by
  simp only [srowLt, Bool.or_eq_true, Bool.and_eq_true, decide_eq_true_eq]

theorem srowLt_hA (x y z : SRow) (h1 : srowLt y x = false) (h2 : srowLt y z = true) :
    srowLt x z = true := by
  have h1' : ¬ (|x.median_d| < |y.median_d| ∨
      (|y.median_d| = |x.median_d| ∧ x.pct_significant < y.pct_significant)) := by
    rw [← srowLt_iff]
    simp [h1]
  push_neg at h1'
  obtain ⟨ha, hb⟩ := h1'
  rw [srowLt_iff] at h2 ⊢
  rcases h2 with h2 | ⟨h2e, h2l⟩
  · exact Or.inl (lt_of_lt_of_le h2 ha)
  · by_cases hxy : |y.median_d| = |x.median_d|
    · refine Or.inr ⟨hxy.symm.trans h2e, ?_⟩
      have := hb hxy
      linarith
    · exact Or.inl (lt_of_le_of_lt (le_of_eq h2e.symm) (lt_of_le_of_ne ha hxy))

theorem srowLt_hC (x y z : SRow) (h1 : srowLt z y = false) (h2 : srowLt y x = false) :
    srowLt z x = false := by
  cases h3 : srowLt z x
  · rfl
  · exfalso
    have h1' : ¬ (|y.median_d| < |z.median_d| ∨
        (|z.median_d| = |y.median_d| ∧ y.pct_significant < z.pct_significant)) := by
      rw [← srowLt_iff]
      simp [h1]
    have h2' : ¬ (|x.median_d| < |y.median_d| ∨
        (|y.median_d| = |x.median_d| ∧ x.pct_significant < y.pct_significant)) := by
      rw [← srowLt_iff]
      simp [h2]
    rw [srowLt_iff] at h3
    push_neg at h1' h2'
    obtain ⟨ha1, hb1⟩ := h1'
    obtain ⟨ha2, hb2⟩ := h2'
    rcases h3 with h3 | ⟨h3e, h3l⟩
    · linarith
    · have he1 : |z.median_d| = |y.median_d| := le_antisymm ha1 (by linarith [h3e.le])
      have he2 : |y.median_d| = |x.median_d| := le_antisymm ha2 (by linarith [h3e.ge])
      have t1 := hb1 he1
      have t2 := hb2 he2
      linarith

theorem srowLt_tie (a b : SRow) (h1 : srowLt a b = false) (h2 : srowLt b a = false) :
    |a.median_d| = |b.median_d| ∧ a.pct_significant = b.pct_significant := by
  have h1' : ¬ (|b.median_d| < |a.median_d| ∨
      (|a.median_d| = |b.median_d| ∧ b.pct_significant < a.pct_significant)) := by
    rw [← srowLt_iff]
    simp [h1]
  have h2' : ¬ (|a.median_d| < |b.median_d| ∨
      (|b.median_d| = |a.median_d| ∧ a.pct_significant < b.pct_significant)) := by
    rw [← srowLt_iff]
    simp [h2]
  push_neg at h1' h2'
  obtain ⟨ha1, hb1⟩ := h1'
  obtain ⟨ha2, hb2⟩ := h2'
  have he : |a.median_d| = |b.median_d| := le_antisymm ha1 ha2
  exact ⟨he, le_antisymm (hb1 he) (hb2 he.symm)⟩

theorem srow3Lt_iff (a b : SRow3) : srow3Lt a b = true ↔
    (|b.median_d| < |a.median_d| ∨
      (|a.median_d| = |b.median_d| ∧ b.pct_significant < a.pct_significant)) := by
  simp only [srow3Lt, Bool.or_eq_true, Bool.and_eq_true, decide_eq_true_eq]

theorem srow3Lt_hA (x y z : SRow3) (h1 : srow3Lt y x = false) (h2 : srow3Lt y z = true) :
    srow3Lt x z = true := by
  have h1' : ¬ (|x.median_d| < |y.median_d| ∨
      (|y.median_d| = |x.median_d| ∧ x.pct_significant < y.pct_significant)) := by
    rw [← srow3Lt_iff]
    simp [h1]
  push_neg at h1'
  obtain ⟨ha, hb⟩ := h1'
  rw [srow3Lt_iff] at h2 ⊢
  rcases h2 with h2 | ⟨h2e, h2l⟩
  · exact Or.inl (lt_of_lt_of_le h2 ha)
  · by_cases hxy : |y.median_d| = |x.median_d|
    · refine Or.inr ⟨hxy.symm.trans h2e, ?_⟩
      have := hb hxy
      linarith
    · exact Or.inl (lt_of_le_of_lt (le_of_eq h2e.symm) (lt_of_le_of_ne ha hxy))

theorem srow3Lt_hC (x y z : SRow3) (h1 : srow3Lt z y = false) (h2 : srow3Lt y x = false) :
    srow3Lt z x = false := by
  cases h3 : srow3Lt z x
  · rfl
  · exfalso
    have h1' : ¬ (|y.median_d| < |z.median_d| ∨
        (|z.median_d| = |y.median_d| ∧ y.pct_significant < z.pct_significant)) := by
      rw [← srow3Lt_iff]
      simp [h1]
    have h2' : ¬ (|x.median_d| < |y.median_d| ∨
        (|y.median_d| = |x.median_d| ∧ x.pct_significant < y.pct_significant)) := by
      rw [← srow3Lt_iff]
      simp [h2]
    rw [srow3Lt_iff] at h3
    push_neg at h1' h2'
    obtain ⟨ha1, hb1⟩ := h1'
    obtain ⟨ha2, hb2⟩ := h2'
    rcases h3 with h3 | ⟨h3e, h3l⟩
    · linarith
    · have he1 : |z.median_d| = |y.median_d| := le_antisymm ha1 (by linarith [h3e.le])
      have he2 : |y.median_d| = |x.median_d| := le_antisymm ha2 (by linarith [h3e.ge])
      have t1 := hb1 he1
      have t2 := hb2 he2
      linarith

theorem srow3Lt_tie (a b : SRow3) (h1 : srow3Lt a b = false) (h2 : srow3Lt b a = false) :
    |a.median_d| = |b.median_d| ∧ a.pct_significant = b.pct_significant := by
  have h1' : ¬ (|b.median_d| < |a.median_d| ∨
      (|a.median_d| = |b.median_d| ∧ b.pct_significant < a.pct_significant)) := by
    rw [← srow3Lt_iff]
    simp [h1]
  have h2' : ¬ (|a.median_d| < |b.median_d| ∨
      (|b.median_d| = |a.median_d| ∧ a.pct_significant < b.pct_significant)) := by
    rw [← srow3Lt_iff]
    simp [h2]
  push_neg at h1' h2'
  obtain ⟨ha1, hb1⟩ := h1'
  obtain ⟨ha2, hb2⟩ := h2'
  have he : |a.median_d| = |b.median_d| := le_antisymm ha1 ha2
  exact ⟨he, le_antisymm (hb1 he) (hb2 he.symm)⟩

theorem pairCntLt_iff (a b : String × ℕ) : pairCntLt a b = true ↔ b.2 < a.2 := by
  simp only [pairCntLt, decide_eq_true_eq]

theorem pairCntLt_hA (x y z : String × ℕ) (h1 : pairCntLt y x = false)
    (h2 : pairCntLt y z = true) : pairCntLt x z = true := by
  have h1' : ¬ x.2 < y.2 := by
    rw [← pairCntLt_iff]
    simp [h1]
  rw [pairCntLt_iff] at h2 ⊢
  omega

theorem pairCntLt_hC (x y z : String × ℕ) (h1 : pairCntLt z y = false)
    (h2 : pairCntLt y x = false) : pairCntLt z x = false := by
  have h1' : ¬ y.2 < z.2 := by
    rw [← pairCntLt_iff]
    simp [h1]
  have h2' : ¬ x.2 < y.2 := by
    rw [← pairCntLt_iff]
    simp [h2]
  cases h3 : pairCntLt z x
  · rfl
  · rw [pairCntLt_iff] at h3
    exact absurd h3 (by omega)

theorem pairwise_trivial {α : Type} : ∀ l : List α, l.Pairwise fun _ _ => True
  | [] => List.Pairwise.nil
  | _ :: l => List.Pairwise.cons (fun _ _ => trivial) (pairwise_trivial l)

/-! ### Counting helpers for the `n_significant` conservation -/

theorem countP_split {α : Type} (sig q : α → Bool) :
    ∀ t : List α,
      t.countP (fun a => sig a && q a) + t.countP (fun a => sig a && !q a) =
        t.countP sig
  | [] => rfl
  | a :: t => by
    have h := countP_split sig q t
    cases hs : sig a <;> cases hq : q a <;>
      simp [List.countP_cons, hs, hq] <;> omega

theorem sum_countP_key {α κ : Type} [DecidableEq κ] (key : α → κ) (sig : α → Bool) :
    ∀ ps : List κ, ps.Nodup → ∀ t : List α, (∀ r ∈ t, key r ∈ ps) →
      (ps.map fun p => ((t.filter fun r => key r == p).countP sig)).sum = t.countP sig
  | [], _, t, hcov => by
    cases t with
    | nil => simp
    | cons r t => exact absurd (hcov r (List.mem_cons_self r t)) (List.not_mem_nil _)
  | p :: ps, hnd, t, hcov => by
    rcases List.nodup_cons.mp hnd with ⟨hp, hnd'⟩
    have hstep : ∀ q ∈ ps, ((t.filter fun r => key r == q).countP sig)
        = (((t.filter fun r => !(key r == p)).filter fun r => key r == q).countP sig) := by
      intro q hq
      have hfil : ((t.filter fun r => !(key r == p)).filter fun r => key r == q)
          = t.filter fun r => key r == q := by
        rw [List.filter_filter]
        apply List.filter_congr
        intro r _
        cases hrq : (key r == q)
        · simp
        · have : key r = q := by simpa using hrq
          have : ¬ (key r == p) = true := by
            simp only [beq_iff_eq, this]
            intro hqp
            exact hp (hqp ▸ hq)
          simp [hrq, this]
      rw [hfil]
    have hcov' : ∀ r ∈ (t.filter fun r => !(key r == p)), key r ∈ ps := by
      intro r hr
      rcases List.mem_filter.mp hr with ⟨hrt, hrp⟩
      rcases List.mem_cons.mp (hcov r hrt) with he | hm
      · exfalso
        simp only [he, Bool.not_eq_true'] at hrp
        simp at hrp
      · exact hm
    have hrec := sum_countP_key key sig ps hnd' (t.filter fun r => !(key r == p)) hcov'
    simp only [List.map_cons, List.sum_cons]
    rw [List.map_congr_left hstep, hrec]
    rw [List.countP_filter, List.countP_filter]
    exact countP_split sig (fun r => key r == p) t

/-! ### Bounds for `pct_significant` -/

theorem round1_bounds (q : ℚ) (h0 : 0 ≤ q) (h1 : q ≤ 100) :
    0 ≤ round1 q ∧ round1 q ≤ 100 := by
  rw [round1]
  have hfl : (0 : ℤ) ≤ round (q * 10) := by
    rw [round_eq]
    exact Int.le_floor.mpr (by push_cast; linarith)
  have hfu : round (q * 10) ≤ 1000 := by
    rw [round_eq]
    have : ⌊q * 10 + 1 / 2⌋ < 1001 := Int.floor_lt.mpr (by push_cast; linarith)
    omega
  constructor
  · apply div_nonneg _ (by norm_num)
    exact_mod_cast hfl
  · rw [div_le_iff₀ (by norm_num : (0:ℚ) < 10)]
    calc ((round (q * 10) : ℤ) : ℚ) ≤ ((1000 : ℤ) : ℚ) := by exact_mod_cast hfu
    _ = 100 * 10 := by norm_num

theorem aggPct_bounds (nSig nTot : ℕ) (h1 : 1 ≤ nTot) (h2 : nSig ≤ nTot) :
    0 ≤ round1 ((nSig : ℚ) / (nTot : ℚ) * 100) ∧
      round1 ((nSig : ℚ) / (nTot : ℚ) * 100) ≤ 100 := by
  have hb : (0 : ℚ) < (nTot : ℚ) := by exact_mod_cast h1
  have ha : (nSig : ℚ) ≤ (nTot : ℚ) := by exact_mod_cast h2
  have hq0 : 0 ≤ (nSig : ℚ) / (nTot : ℚ) * 100 := by positivity
  have hq1 : (nSig : ℚ) / (nTot : ℚ) * 100 ≤ 100 := by
    have := (div_le_one hb).mpr ha
    linarith
  exact round1_bounds _ hq0 hq1

/-! ### Group extraction helpers -/

theorem mem_groupedPathways {t : List Row} {s : SRow} (h : s ∈ groupedPathways t) :
    ∃ p, p ∈ sortedPathways t ∧ s = aggGroup p (t.filter fun r => r.pathway == p) := by
  rw [groupedPathways] at h
  rcases List.mem_map.mp h with ⟨p, hp, rfl⟩
  exact ⟨p, hp, rfl⟩

theorem mem_grouped3 {t : List Row3} {hasTraj : Bool} {s : SRow3}
    (h : s ∈ grouped3 hasTraj t) :
    ∃ p, p ∈ sortedPathways3 t ∧
      s = aggGroup3 hasTraj p (t.filter fun r => r.pathway == p) := by
  rw [grouped3] at h
  rcases List.mem_map.mp h with ⟨p, hp, rfl⟩
  exact ⟨p, hp, rfl⟩

theorem group_nonempty {t : List Row} {p : String} (hp : p ∈ sortedPathways t) :
    (t.filter fun r => r.pathway == p) ≠ [] := by
  rw [sortedPathways, mem_sortRows, mem_uniqueFirst] at hp
  rcases List.mem_map.mp hp with ⟨r, hr, rfl⟩
  intro hnil
  have hm : r ∈ t.filter fun x => x.pathway == r.pathway :=
    List.mem_filter.mpr ⟨hr, by simp⟩
  rw [hnil] at hm
  exact List.not_mem_nil r hm

theorem group_nonempty3 {t : List Row3} {p : String} (hp : p ∈ sortedPathways3 t) :
    (t.filter fun r => r.pathway == p) ≠ [] := by
  rw [sortedPathways3, mem_sortRows, mem_uniqueFirst] at hp
  rcases List.mem_map.mp hp with ⟨r, hr, rfl⟩
  intro hnil
  have hm : r ∈ t.filter fun x => x.pathway == r.pathway :=
    List.mem_filter.mpr ⟨hr, by simp⟩
  rw [hnil] at hm
  exact List.not_mem_nil r hm

/-! ### `value_counts().index[0]` returns a most frequent value -/

theorem modeVC_spec (xs : List String) (hne : xs ≠ []) :
    modeVC xs ∈ xs ∧ ∀ v : String, xs.count v ≤ xs.count (modeVC xs) := by
  set pairs := (uniqueFirst xs).map (fun k => (k, xs.count k)) with hpairs
  have hpw := sortRows_pairwise pairCntLt (fun _ _ => True) pairCntLt_hA pairCntLt_hC
    pairs (pairwise_trivial pairs)
  cases hs : sortRows pairCntLt pairs with
  | nil =>
    exfalso
    cases xs with
    | nil => exact hne rfl
    | cons x xs' =>
      have hx : (x, (x :: xs').count x) ∈ pairs := by
        rw [hpairs]
        exact List.mem_map.mpr ⟨x, (mem_uniqueFirst _ x).mpr (List.mem_cons_self _ _), rfl⟩
      rw [← mem_sortRows pairCntLt pairs, hs] at hx
      exact List.not_mem_nil _ hx
  | cons kv rest =>
    have hmode : modeVC xs = kv.1 := by
      rw [modeVC, ← hpairs, hs]
    have hkv : kv ∈ pairs := by
      rw [← mem_sortRows pairCntLt pairs, hs]
      exact List.mem_cons_self _ _
    rcases List.mem_map.mp hkv with ⟨k, hk, hkeq⟩
    have hk1 : kv.1 = k := by rw [← hkeq]
    have hk2 : kv.2 = xs.count k := by rw [← hkeq]
    have hmax : ∀ q ∈ sortRows pairCntLt pairs, q.2 ≤ kv.2 := by
      intro q hq
      rw [hs] at hq hpw
      rcases List.mem_cons.mp hq with rfl | hq
      · exact le_refl _
      · rcases List.pairwise_cons.mp hpw with ⟨hhead, _⟩
        rcases hhead q hq with hlt | ⟨h1, h2, _⟩
        · have : q.2 < kv.2 := by simpa [pairCntLt] using hlt
          exact le_of_lt this
        · have e1 : ¬ q.2 < kv.2 := by simpa [pairCntLt] using h1
          have e2 : ¬ kv.2 < q.2 := by simpa [pairCntLt] using h2
          omega
    constructor
    · rw [hmode, hk1]
      exact (mem_uniqueFirst xs k).mp hk
    · intro v
      rw [hmode, hk1, ← hk2]
      by_cases hv : v ∈ xs
      · have hvp : (v, xs.count v) ∈ pairs := by
          rw [hpairs]
          exact List.mem_map.mpr ⟨v, (mem_uniqueFirst _ v).mpr hv, rfl⟩
        rw [← mem_sortRows pairCntLt pairs] at hvp
        exact hmax _ hvp
      · rw [List.count_eq_zero.mpr hv]
        exact Nat.zero_le _

/-! ### Sortedness of the group keys and the grouped tables -/

theorem sortedPathways_pairwise (t : List Row) :
    (sortedPathways t).Pairwise fun a b => strLt a b = true := by
  have h := sortRows_pairwise strLt (fun a b => a ≠ b) strLt_hA strLt_hC
      (uniqueFirst (t.map Row.pathway)) (nodup_uniqueFirst _)
  refine h.imp ?_
  rintro a b (hab | ⟨h1, h2, hne⟩)
  · exact hab
  · exact absurd (strLt_tie_eq a b h1 h2) hne

theorem sortedPathways3_pairwise (t : List Row3) :
    (sortedPathways3 t).Pairwise fun a b => strLt a b = true := by
  have h := sortRows_pairwise strLt (fun a b => a ≠ b) strLt_hA strLt_hC
      (uniqueFirst (t.map Row3.pathway)) (nodup_uniqueFirst _)
  refine h.imp ?_
  rintro a b (hab | ⟨h1, h2, hne⟩)
  · exact hab
  · exact absurd (strLt_tie_eq a b h1 h2) hne

theorem groupedPathways_pairwise (t : List Row) :
    (groupedPathways t).Pairwise fun a b => strLt a.pathway b.pathway = true := by
  rw [groupedPathways, List.pairwise_map]
  exact (sortedPathways_pairwise t).imp fun h => h

theorem grouped3_pairwise (hasTraj : Bool) (t : List Row3) :
    (grouped3 hasTraj t).Pairwise fun a b => strLt a.pathway b.pathway = true := by
  rw [grouped3, List.pairwise_map]
  exact (sortedPathways3_pairwise t).imp fun h => h

/-! ## The claims -/

/-- C4: with a selection other than `"All"`, a reaction row is kept by the
direction (resp. developmental-pattern) filter iff its direction label
(the label the explorer filters on, see C10) is string-equal to the
selected value; in particular a row labelled `"CD5 hi"` is never kept by
the filter value `"CD5"`, and filtering on `"CD5 hi"` keeps exactly the
rows labelled `"CD5 hi"`. -/
theorem claim4_direction_exact :
    (∀ (hi lo sel : String) (t : List Row) (r : Row), sel ≠ "All" →
      (r ∈ directionStep hi lo sel t ↔ r ∈ t ∧ directionLabel hi lo r = sel)) ∧
    (∀ (hasTraj : Bool) (sel : String) (t : List Row3) (r : Row3),
      sel ≠ "All" → hasTraj = true →
      (r ∈ trajectoryStep hasTraj sel t ↔ r ∈ t ∧ r.developmental_trajectory = sel)) ∧
    directionStep "CD5 hi" "CD5 lo" "CD5"
      [⟨"R1", "P", 1, 0, true, "", 0, "CD5 hi", 1⟩] = [] ∧
    directionStep "CD5 hi" "CD5 lo" "CD5 hi"
      [⟨"R1", "P", 1, 0, true, "", 0, "CD5 hi", 1⟩,
        ⟨"R2", "P", -1, 0, true, "", 0, "CD5 lo", -1⟩]
      = [⟨"R1", "P", 1, 0, true, "", 0, "CD5 hi", 1⟩] := by
  refine ⟨?_, ?_, by decide, by decide⟩
  · intro hi lo sel t r hsel
    rw [directionStep, if_neg hsel, List.mem_filter]
    simp only [beq_iff_eq]
  · intro hasTraj sel t r hsel htraj
    subst htraj
    rw [trajectoryStep, if_pos ⟨hsel, rfl⟩, List.mem_filter]
    simp only [beq_iff_eq]

/-- C4 witness: the exact-match characterisation applied at the row
labelled `"CD5 hi"` with the filter value `"CD5 hi"`. -/
theorem claim4_direction_exact_w :
    (⟨"R1", "P", 1, 0, true, "", 0, "CD5 hi", 1⟩ : Row) ∈
      directionStep "CD5 hi" "CD5 lo" "CD5 hi"
        [⟨"R1", "P", 1, 0, true, "", 0, "CD5 hi", 1⟩] :=
  (claim4_direction_exact.1 "CD5 hi" "CD5 lo" "CD5 hi" _ _ (by decide)).mpr
    ⟨List.mem_singleton_self _, by decide⟩

/-- C10: in the two-group explorer (distinct labels) the filtered
direction label is recomputed from the sign of `pathway_median_d` —
`hi_label` for positive, `lo_label` otherwise, including at exactly zero —
while the selectbox options come from the raw input `pathway_direction`
column; a concrete table shows a selectable option (`"Up"`) that matches
no recomputed label, so selecting it keeps no row. -/
theorem claim10_recomputed_direction :
    (∀ (hi lo : String) (r : Row), hi ≠ lo →
      directionLabel hi lo r = if 0 < r.pathway_median_d then hi else lo) ∧
    (∀ (hi lo : String) (r : Row), hi ≠ lo → r.pathway_median_d = 0 →
      directionLabel hi lo r = lo) ∧
    (∀ t : List Row,
      directionOptions t = "All" :: uniqueFirst (t.map Row.pathway_direction)) ∧
    (("Up" : String) ∈ directionOptions [⟨"R1", "P", 1, 0, true, "", 0, "Up", 1⟩] ∧
      directionStep "CD5 hi" "CD5 lo" "Up"
        [⟨"R1", "P", 1, 0, true, "", 0, "Up", 1⟩] = []) := by
  refine ⟨?_, ?_, fun t => rfl, by decide, by decide⟩
  · intro hi lo r h
    rw [directionLabel, if_neg h]
  · intro hi lo r h h0
    rw [directionLabel, if_neg h, h0, if_neg (lt_irrefl 0)]

/-- C10 witness: the recomputed label at `pathway_median_d = 0` is the
`lo` label. -/
theorem claim10_recomputed_direction_w :
    directionLabel "CD5 hi" "CD5 lo" ⟨"R1", "P", 1, 0, true, "", 0, "CD5 hi", 0⟩
      = "CD5 lo" :=
  claim10_recomputed_direction.2.1 "CD5 hi" "CD5 lo" _ (by decide) rfl

/-- C2 counterexample: in the three-way explorer the effect threshold acts
on rows, not pathways.  With `min_effect = 1`, the reaction with
`cohens_d = 0` is removed from the filtered table on account of its own
effect size, while the pathway `"P"` stays in the Pathway Summary although
its `|median_d| = 0` is below the threshold. -/
theorem claim2_cx :
    threeWayFiltered
        ⟨[⟨"R1", "P", 1, 0, true, "", 0, "Dec", 1, 1, 1⟩,
          ⟨"R2", "P", -1, 0, true, "", 0, "Dec", 1, 1, 1⟩,
          ⟨"R3", "P", 0, 0, true, "", 0, "Dec", 1, 1, 1⟩], true⟩
        ⟨"", "All", false, false, 1⟩
      = [⟨"R1", "P", 1, 0, true, "", 0, "Dec", 1, 1, 1⟩,
          ⟨"R2", "P", -1, 0, true, "", 0, "Dec", 1, 1, 1⟩] ∧
    (threeWaySummary
        ⟨[⟨"R1", "P", 1, 0, true, "", 0, "Dec", 1, 1, 1⟩,
          ⟨"R2", "P", -1, 0, true, "", 0, "Dec", 1, 1, 1⟩,
          ⟨"R3", "P", 0, 0, true, "", 0, "Dec", 1, 1, 1⟩], true⟩
        ⟨"", "All", false, false, 1⟩).map
      (fun s => (s.pathway, s.median_d, s.n_total)) = [("P", 0, 2)] := by
  constructor
  · decide
  · simp [threeWaySummary, threeWayFiltered, searchStep3, trajectoryStep, sigStep3,
      genesStep3, effectStep3, grouped3, sortedPathways3, uniqueFirst, uniqueFirstAux,
      sortRows, insertRow, aggGroup3, medianQ, ratLt, strLt, charListLt]

/-- C2 (amended): the two explorers place the effect-size threshold at
different stages.  In the two-group explorer the filtered reaction table
does not depend on `min_effect` at all and a pathway row survives into the
summary iff `min_effect ≤ |median_d|`; in the three-way explorer a row
survives iff `min_effect ≤ |cohens_d|` (its own effect size) and the
aggregation applies no pathway-level threshold afterwards. -/
theorem claim2_effect_threshold_stage :
    (∀ (hi lo : String) (t : List Row) (s d : String) (so go : Bool) (m : ℚ),
      twoGroupFiltered hi lo t ⟨s, d, so, go, m⟩
        = twoGroupFiltered hi lo t ⟨s, d, so, go, 0⟩) ∧
    (∀ (hi lo : String) (t : List Row) (spec : FSpec) (srow : SRow),
      srow ∈ twoGroupSummary hi lo t spec ↔
        srow ∈ groupedPathways (twoGroupFiltered hi lo t spec) ∧
          spec.min_effect ≤ |srow.median_d|) ∧
    (∀ (t : Table3) (spec : FSpec) (r : Row3),
      r ∈ threeWayFiltered t spec ↔
        r ∈ genesStep3 spec.genes_only (sigStep3 spec.significant_only
            (trajectoryStep t.hasTrajectory spec.direction
              (searchStep3 spec.search_term t.rows))) ∧
          spec.min_effect ≤ |r.cohens_d|) ∧
    (∀ (t : Table3) (spec : FSpec) (s3 : SRow3),
      s3 ∈ threeWaySummary t spec ↔
        s3 ∈ grouped3 t.hasTrajectory (threeWayFiltered t spec)) := by
  refine ⟨fun _ _ _ _ _ _ _ _ => rfl, ?_, ?_, ?_⟩
  · intro hi lo t spec srow
    rw [twoGroupSummary, mem_sortRows, List.mem_filter, decide_eq_true_eq]
  · intro t spec r
    rw [threeWayFiltered, effectStep3, List.mem_filter, decide_eq_true_eq]
  · intro t spec s3
    rw [threeWaySummary, mem_sortRows]

/-- C5 counterexample: the search uses `str.contains` with its
`regex=True` default, so the term is a regular expression, not a literal
substring.  The term `"a.c"` keeps the row with pathway `"abc"` although
`"a.c"` is not a literal substring of `"abc"` (nor of the empty genes
string). -/
theorem claim5_cx :
    searchStep "a.c" [⟨"R1", "abc", 1, 0, true, "", 0, "Up", 1⟩]
        = [⟨"R1", "abc", 1, 0, true, "", 0, "Up", 1⟩] ∧
    litSearch (lowerChars "a.c") (lowerChars "abc") = false ∧
    litSearch (lowerChars "a.c") (lowerChars "") = false := by
  refine ⟨by decide, by decide, by decide⟩

/-- C5 (amended): for a non-empty search term free of regex
metacharacters, a row is kept iff the lower-cased term occurs as a literal
substring of the lower-cased `pathway` or of the lower-cased serialized
`genes` string (the code matches the term as a regular expression through
`str.contains`, which coincides with literal containment exactly on such
terms); an empty term leaves the table unchanged.  Both explorers. -/
theorem claim5_search_literal :
    (∀ (term : String) (t : List Row) (r : Row), term ≠ "" →
      (∀ c ∈ lowerChars term, c ∉ metaChars) →
      (r ∈ searchStep term t ↔ r ∈ t ∧
        (litSearch (lowerChars term) (lowerChars r.pathway) = true ∨
          litSearch (lowerChars term) (lowerChars r.genes) = true))) ∧
    (∀ t : List Row, searchStep "" t = t) ∧
    (∀ (term : String) (t : List Row3) (r : Row3), term ≠ "" →
      (∀ c ∈ lowerChars term, c ∉ metaChars) →
      (r ∈ searchStep3 term t ↔ r ∈ t ∧
        (litSearch (lowerChars term) (lowerChars r.pathway) = true ∨
          litSearch (lowerChars term) (lowerChars r.genes) = true))) ∧
    (∀ t : List Row3, searchStep3 "" t = t) := by
  refine ⟨?_, fun t => rfl, ?_, fun t => rfl⟩
  · intro term t r hne hmeta
    rw [searchStep, if_neg hne, List.mem_filter, Bool.or_eq_true,
      reSearch_eq_litSearch _ hmeta, reSearch_eq_litSearch _ hmeta]
  · intro term t r hne hmeta
    rw [searchStep3, if_neg hne, List.mem_filter, Bool.or_eq_true,
      reSearch_eq_litSearch _ hmeta, reSearch_eq_litSearch _ hmeta]

/-- C5 witness: the literal characterisation applied to the
metacharacter-free term `"GLY"`, matching the pathway `"Glycolysis"`
case-insensitively. -/
theorem claim5_search_literal_w :
    (⟨"R1", "Glycolysis", 1, 0, true, "Pfkm; Ldha", 2, "Up", 1⟩ : Row) ∈
      searchStep "GLY" [⟨"R1", "Glycolysis", 1, 0, true, "Pfkm; Ldha", 2, "Up", 1⟩] :=
  (claim5_search_literal.1 "GLY" _ _ (by decide) (by decide)).mpr
    ⟨List.mem_singleton_self _, Or.inl (by decide)⟩

/-- C8 counterexample: an absent `genes` column is not handled.  The
source reads `filtered_data['genes']` with no guard, so a non-empty search
raises `KeyError` instead of acting as a no-op: the checked search step
returns an error, not the unchanged table. -/
theorem claim8_cx :
    searchStepChecked false "glyc"
        [⟨"R1", "Glycolysis", 1, 0, true, "Pfkm; Ldha", 2, "Up", 1⟩]
      = Except.error () ∧
    searchStepChecked false "glyc"
        [⟨"R1", "Glycolysis", 1, 0, true, "Pfkm; Ldha", 2, "Up", 1⟩]
      ≠ Except.ok [⟨"R1", "Glycolysis", 1, 0, true, "Pfkm; Ldha", 2, "Up", 1⟩] := by
  refine ⟨rfl, ?_⟩
  intro h
  exact Except.noConfusion ((rfl : searchStepChecked false "glyc" _ = Except.error ()).symm.trans h)

/-- C8 (amended): only the guarded columns degrade gracefully.  With
`developmental_trajectory` absent the pattern filter keeps every row and
the pathway label is the literal `"Unknown"`; with the `genes` column
present the search behaves normally; but with `genes` absent any
non-empty search fails (`KeyError`) instead of being a no-op. -/
theorem claim8_missing_columns :
    (∀ (sel : String) (t : List Row3), trajectoryStep false sel t = t) ∧
    (∀ (p : String) (rs : List Row3),
      (aggGroup3 false p rs).common_trajectory = "Unknown") ∧
    (∀ (term : String) (t : List Row),
      searchStepChecked true term t = Except.ok (searchStep term t)) ∧
    (∀ (term : String) (t : List Row), term ≠ "" →
      searchStepChecked false term t = Except.error ()) := by
  refine ⟨?_, fun p rs => rfl, ?_, ?_⟩
  · intro sel t
    rw [trajectoryStep, if_neg]
    rintro ⟨-, h⟩
    exact Bool.noConfusion h
  · intro term t
    by_cases h : term = ""
    · subst h
      rw [searchStepChecked, if_pos rfl, searchStep, if_pos rfl]
    · rw [searchStepChecked, if_neg h, if_pos rfl]
  · intro term t hne
    rw [searchStepChecked, if_neg hne, if_neg (by exact Bool.noConfusion)]

/-- C8 witness: the graceful and the failing behaviour at concrete
inputs, through the amended theorem. -/
theorem claim8_missing_columns_w :
    searchStepChecked false "x" ([] : List Row) = Except.error () :=
  claim8_missing_columns.2.2.2 "x" [] (by decide)

/-- C1 counterexample: with `min_abs_effect > 0` the two-group Pathway
Summary drops low-effect pathways whose significant rows remain in the
filtered table, so the sums differ.  One significant reaction in a pathway
with `pathway_median_d = 0` and threshold `1`: the summary is empty (sum
`0`) while the filtered table holds one significant row. -/
theorem claim1_cx :
    ((twoGroupSummary "H" "L" [⟨"R1", "P", 1, 0, true, "", 0, "Up", 0⟩]
        ⟨"", "All", false, false, 1⟩).map SRow.n_significant).sum = 0 ∧
    (twoGroupFiltered "H" "L" [⟨"R1", "P", 1, 0, true, "", 0, "Up", 0⟩]
        ⟨"", "All", false, false, 1⟩).countP (fun r => r.significant) = 1 := by
  constructor
  · simp [twoGroupSummary, twoGroupFiltered, searchStep, directionStep, sigStep, genesStep,
      groupedPathways, sortedPathways, uniqueFirst, uniqueFirstAux, sortRows, insertRow,
      aggGroup, strLt, charListLt]
  · decide

/-- C1 (amended): the conservation of significant counts holds against
the table each explorer actually aggregates.  In the two-group explorer,
with `min_abs_effect = 0` (equivalently, before the pathway-level effect
filter) the sum of `n_significant` over the Pathway Summary equals the
number of significant rows of the filtered table; in the three-way
explorer the equality holds for every threshold because the effect filter
is part of the row-level filtering there. -/
theorem claim1_sum_significant :
    (∀ (hi lo : String) (t : List Row) (s d : String) (so go : Bool), t ≠ [] →
      ((twoGroupSummary hi lo t ⟨s, d, so, go, 0⟩).map SRow.n_significant).sum
        = (twoGroupFiltered hi lo t ⟨s, d, so, go, 0⟩).countP (fun r => r.significant)) ∧
    (∀ (t : Table3) (spec : FSpec), t.rows ≠ [] →
      ((threeWaySummary t spec).map SRow3.n_significant).sum
        = (threeWayFiltered t spec).countP (fun r => r.significant)) := by
  constructor
  · intro hi lo t s d so go _
    have hall : ∀ a ∈ groupedPathways
        (twoGroupFiltered hi lo t ⟨s, d, so, go, 0⟩),
        decide ((⟨s, d, so, go, 0⟩ : FSpec).min_effect ≤ |a.median_d|) = true :=
      fun a _ => decide_eq_true
        (show (⟨s, d, so, go, 0⟩ : FSpec).min_effect ≤ |a.median_d| from
          abs_nonneg a.median_d)
    rw [twoGroupSummary, List.filter_eq_self.mpr hall]
    rw [((sortRows_perm srowLt _).map SRow.n_significant).sum_eq]
    rw [groupedPathways, List.map_map]
    exact sum_countP_key Row.pathway (fun r => r.significant) _
      ((sortRows_perm strLt _).nodup_iff.mpr (nodup_uniqueFirst _)) _
      (fun r hr => (mem_sortRows strLt _ _).mpr
        ((mem_uniqueFirst _ _).mpr (List.mem_map_of_mem Row.pathway hr)))
  · intro t spec _
    rw [threeWaySummary,
      ((sortRows_perm srow3Lt _).map SRow3.n_significant).sum_eq]
    rw [grouped3, List.map_map]
    exact sum_countP_key Row3.pathway (fun r => r.significant) _
      ((sortRows_perm strLt _).nodup_iff.mpr (nodup_uniqueFirst _)) _
      (fun r hr => (mem_sortRows strLt _ _).mpr
        ((mem_uniqueFirst _ _).mpr (List.mem_map_of_mem Row3.pathway hr)))

/-- C1 witness: the conservation at a one-row table with threshold 0. -/
theorem claim1_sum_significant_w :
    ((twoGroupSummary "H" "L" [⟨"R1", "P", 1, 0, true, "", 0, "Up", 1⟩]
        ⟨"", "All", false, false, 0⟩).map SRow.n_significant).sum
      = (twoGroupFiltered "H" "L" [⟨"R1", "P", 1, 0, true, "", 0, "Up", 1⟩]
          ⟨"", "All", false, false, 0⟩).countP (fun r => r.significant) :=
  claim1_sum_significant.1 "H" "L" _ "" "All" false false (by decide)

/-- C9: every Pathway Summary row of either explorer satisfies
`n_total ≥ 1` (a pathway appears only with at least one reaction, so the
`pct_significant` division never divides by zero) and
`0 ≤ pct_significant ≤ 100`. -/
theorem claim9_pct_bounds :
    (∀ (hi lo : String) (t : List Row) (spec : FSpec) (s : SRow),
      s ∈ twoGroupSummary hi lo t spec →
        1 ≤ s.n_total ∧ 0 ≤ s.pct_significant ∧ s.pct_significant ≤ 100) ∧
    (∀ (t : Table3) (spec : FSpec) (s : SRow3),
      s ∈ threeWaySummary t spec →
        1 ≤ s.n_total ∧ 0 ≤ s.pct_significant ∧ s.pct_significant ≤ 100) := by
  constructor
  · intro hi lo t spec s hs
    rw [twoGroupSummary, mem_sortRows, List.mem_filter] at hs
    rcases mem_groupedPathways hs.1 with ⟨p, hp, rfl⟩
    have hlen : 1 ≤ ((twoGroupFiltered hi lo t spec).filter fun r => r.pathway == p).length :=
      List.length_pos.mpr (group_nonempty hp)
    have hcnt := List.countP_le_length (p := fun r => r.significant)
      (l := (twoGroupFiltered hi lo t spec).filter fun r => r.pathway == p)
    exact ⟨hlen, aggPct_bounds _ _ hlen hcnt⟩
  · intro t spec s hs
    rw [threeWaySummary, mem_sortRows] at hs
    rcases mem_grouped3 hs with ⟨p, hp, rfl⟩
    have hlen : 1 ≤ ((threeWayFiltered t spec).filter fun r => r.pathway == p).length :=
      List.length_pos.mpr (group_nonempty3 hp)
    have hcnt := List.countP_le_length (p := fun r => r.significant)
      (l := (threeWayFiltered t spec).filter fun r => r.pathway == p)
    exact ⟨hlen, aggPct_bounds _ _ hlen hcnt⟩

/-- C9 witness: the bounds at a concrete one-row table (no significant
rows, so the percentage is zero). -/
theorem claim9_pct_bounds_w :
    1 ≤ (⟨"P", "Up", 1, 0, 1, 0⟩ : SRow).n_total ∧
      0 ≤ (⟨"P", "Up", 1, 0, 1, 0⟩ : SRow).pct_significant ∧
      (⟨"P", "Up", 1, 0, 1, 0⟩ : SRow).pct_significant ≤ 100 :=
  claim9_pct_bounds.1 "H" "L" [⟨"R1", "P", 1, 0, false, "", 0, "Up", 1⟩]
    ⟨"", "All", false, false, 0⟩ ⟨"P", "Up", 1, 0, 1, 0⟩
    (by
      simp [twoGroupSummary, twoGroupFiltered, searchStep, directionStep, sigStep, genesStep,
        groupedPathways, sortedPathways, uniqueFirst, uniqueFirstAux, sortRows, insertRow,
        aggGroup, strLt, charListLt, round1])

/-- C3 counterexample: `groupby('pathway')` sorts the group keys, so ties
on both sort keys come out in ascending pathway-name order, not input
order.  Two identical-statistics pathways entered as `"B"` then `"A"`
produce the summary order `["A", "B"]` although the first-appearance order
of the filtered input is `["B", "A"]`; both summary rows tie on
`|median_d|` and on `pct_significant`. -/
theorem claim3_cx :
    (twoGroupSummary "H" "L"
        [⟨"R1", "B", 1, 0, true, "", 0, "Up", 1⟩, ⟨"R2", "A", 1, 0, true, "", 0, "Up", 1⟩]
        ⟨"", "All", false, false, 0⟩).map SRow.pathway = ["A", "B"] ∧
    uniqueFirst ((twoGroupFiltered "H" "L"
        [⟨"R1", "B", 1, 0, true, "", 0, "Up", 1⟩, ⟨"R2", "A", 1, 0, true, "", 0, "Up", 1⟩]
        ⟨"", "All", false, false, 0⟩).map Row.pathway) = ["B", "A"] ∧
    (twoGroupSummary "H" "L"
        [⟨"R1", "B", 1, 0, true, "", 0, "Up", 1⟩, ⟨"R2", "A", 1, 0, true, "", 0, "Up", 1⟩]
        ⟨"", "All", false, false, 0⟩).map (fun s => |s.median_d|) = [1, 1] ∧
    ((twoGroupSummary "H" "L"
        [⟨"R1", "B", 1, 0, true, "", 0, "Up", 1⟩, ⟨"R2", "A", 1, 0, true, "", 0, "Up", 1⟩]
        ⟨"", "All", false, false, 0⟩).map SRow.pct_significant).getD 0 0
      = ((twoGroupSummary "H" "L"
        [⟨"R1", "B", 1, 0, true, "", 0, "Up", 1⟩, ⟨"R2", "A", 1, 0, true, "", 0, "Up", 1⟩]
        ⟨"", "All", false, false, 0⟩).map SRow.pct_significant).getD 1 0 := by
  refine ⟨?_, by decide, ?_, ?_⟩ <;>
    simp [twoGroupSummary, twoGroupFiltered, searchStep, directionStep, sigStep, genesStep,
      groupedPathways, sortedPathways, uniqueFirst, uniqueFirstAux, sortRows, insertRow,
      aggGroup, srowLt, strLt, charListLt]

/-- C3 (amended): both Pathway Summaries are sorted by `|median_d|`
descending, then `pct_significant` descending, with any remaining ties in
ascending pathway-name order (the order `groupby` emits the groups in) —
not in input order.  The pipeline is a pure function of the table and
filters, so recomputation yields the identical row order. -/
theorem claim3_sorted_alphabetical_ties :
    (∀ (hi lo : String) (t : List Row) (spec : FSpec),
      (twoGroupSummary hi lo t spec).Pairwise summaryOrder) ∧
    (∀ (t : Table3) (spec : FSpec), (threeWaySummary t spec).Pairwise summaryOrder3) := by
  constructor
  · intro hi lo t spec
    have hg := List.Pairwise.filter
      (fun sr => decide (spec.min_effect ≤ |sr.median_d|))
      (groupedPathways_pairwise (twoGroupFiltered hi lo t spec))
    have hp := sortRows_pairwise srowLt (fun a b => strLt a.pathway b.pathway = true)
      srowLt_hA srowLt_hC _ hg
    refine hp.imp ?_
    rintro a b (hlt | ⟨h1, h2, hS⟩)
    · rw [srowLt_iff a b] at hlt
      rcases hlt with h | ⟨he, hl⟩
      · exact Or.inl h
      · exact Or.inr (Or.inl ⟨he, hl⟩)
    · rcases srowLt_tie a b h1 h2 with ⟨he1, he2⟩
      exact Or.inr (Or.inr ⟨he1, he2, hS⟩)
  · intro t spec
    have hg := grouped3_pairwise t.hasTrajectory (threeWayFiltered t spec)
    have hp := sortRows_pairwise srow3Lt (fun a b => strLt a.pathway b.pathway = true)
      srow3Lt_hA srow3Lt_hC _ hg
    refine hp.imp ?_
    rintro a b (hlt | ⟨h1, h2, hS⟩)
    · rw [srow3Lt_iff a b] at hlt
      rcases hlt with h | ⟨he, hl⟩
      · exact Or.inl h
      · exact Or.inr (Or.inl ⟨he, hl⟩)
    · rcases srow3Lt_tie a b h1 h2 with ⟨he1, he2⟩
      exact Or.inr (Or.inr ⟨he1, he2, hS⟩)

/-- C7 counterexample: the explorer never computes a per-reaction argmax
over the stage means.  A reaction whose stage means put `Early_Selection`
on top but whose `developmental_trajectory` is `"Decreasing"` yields the
pathway label `"Decreasing"` — the mode of the trajectory column — not
`"Early_Selection"` as the claim's argmax/mode construction demands. -/
theorem claim7_cx :
    (threeWaySummary ⟨[⟨"R1", "P", 2, 0, true, "", 0, "Decreasing", 5, 1, 1⟩], true⟩
        ⟨"", "All", false, false, 0⟩).map SRow3.common_trajectory = ["Decreasing"] ∧
    claimCommonLabel [⟨"R1", "P", 2, 0, true, "", 0, "Decreasing", 5, 1, 1⟩]
      = "Early_Selection" ∧
    ("Decreasing" : String) ≠ "Early_Selection" := by
  refine ⟨?_, ?_, by decide⟩
  · simp [threeWaySummary, threeWayFiltered, searchStep3, trajectoryStep, sigStep3,
      genesStep3, effectStep3, grouped3, sortedPathways3, uniqueFirst, uniqueFirstAux,
      sortRows, insertRow, aggGroup3, modeVC, pairCntLt, strLt, charListLt]
  · simp [claimCommonLabel, claimHighestStage, modeVC, uniqueFirst, uniqueFirstAux,
      sortRows, insertRow, pairCntLt]

/-- C7 (amended): when the trajectory column is present, each pathway's
`common_trajectory` is a most frequent value of its reactions'
`developmental_trajectory` labels (`value_counts().index[0]`): it occurs
among the group's labels and no label of the group has a strictly greater
count.  No per-reaction highest-stage argmax takes part in the
aggregation. -/
theorem claim7_common_label :
    ∀ (t : Table3) (spec : FSpec), t.hasTrajectory = true →
      ∀ s ∈ threeWaySummary t spec,
        s.common_trajectory ∈
          ((threeWayFiltered t spec).filter fun r => r.pathway == s.pathway).map
            Row3.developmental_trajectory ∧
        ∀ v : String,
          (((threeWayFiltered t spec).filter fun r => r.pathway == s.pathway).map
              Row3.developmental_trajectory).count v ≤
            (((threeWayFiltered t spec).filter fun r => r.pathway == s.pathway).map
              Row3.developmental_trajectory).count s.common_trajectory := by
  intro t spec htraj s hs
  rw [threeWaySummary, mem_sortRows, htraj] at hs
  rcases mem_grouped3 hs with ⟨p, hp, rfl⟩
  have hne : ((threeWayFiltered t spec).filter fun r => r.pathway == p) ≠ [] :=
    group_nonempty3 hp
  have hmapne : (((threeWayFiltered t spec).filter fun r => r.pathway == p).map
      Row3.developmental_trajectory) ≠ [] := by
    intro hm
    exact hne (List.map_eq_nil_iff.mp hm)
  have hspec := modeVC_spec _ hmapne
  simp only [aggGroup3, if_true]
  exact hspec

/-- C7 witness: the mode characterisation at a concrete one-pathway
table. -/
theorem claim7_common_label_w :
    ((threeWayFiltered ⟨[⟨"R1", "P", 2, 0, false, "", 0, "Decreasing", 5, 1, 1⟩], true⟩
          ⟨"", "All", false, false, 0⟩).filter fun r =>
        r.pathway == (⟨"P", 2, 0, 1, "Decreasing", 0⟩ : SRow3).pathway).map
        Row3.developmental_trajectory
      = ["Decreasing"] ∧
    (⟨"P", 2, 0, 1, "Decreasing", 0⟩ : SRow3).common_trajectory ∈
      ((threeWayFiltered ⟨[⟨"R1", "P", 2, 0, false, "", 0, "Decreasing", 5, 1, 1⟩], true⟩
            ⟨"", "All", false, false, 0⟩).filter fun r =>
          r.pathway == (⟨"P", 2, 0, 1, "Decreasing", 0⟩ : SRow3).pathway).map
        Row3.developmental_trajectory := by
  have hmem : (⟨"P", 2, 0, 1, "Decreasing", 0⟩ : SRow3) ∈
      threeWaySummary ⟨[⟨"R1", "P", 2, 0, false, "", 0, "Decreasing", 5, 1, 1⟩], true⟩
        ⟨"", "All", false, false, 0⟩ := by
    simp [threeWaySummary, threeWayFiltered, searchStep3, trajectoryStep, sigStep3,
      genesStep3, effectStep3, grouped3, sortedPathways3, uniqueFirst, uniqueFirstAux,
      sortRows, insertRow, aggGroup3, modeVC, pairCntLt, medianQ, ratLt, round1,
      strLt, charListLt]
  refine ⟨by decide, ?_⟩
  exact (claim7_common_label _ _ rfl _ hmem).1

end Compass
